import Mathlib

/-!
Verification of the `lookup` OCR library (Go) against its specification.

Shallow embedding conventions:
* Go `int` is modelled as `Int` (no overflow is relevant to any claim here:
  all quantities are small image coordinates and pixel counts).
* Go `float64` quality scores are modelled as `ℚ`: the code only ever
  subtracts and compares qualities, and on finite floats `a - b = 0 ↔ a = b`
  and the comparisons agree with the rational/real ordering.
* Go `string` is a byte slice; strings are modelled as `List Nat` (byte
  values).  `asciiBytes` converts an ASCII Lean string literal to its bytes.
* `fontSymbolLookup.fs.image` is collapsed to its three observable fields
  `width`, `height`, `size` (stored directly on `FontSymbol`), which is all
  the arrangement pipeline reads from it.
* `FontSymbol.Advance()` is code of this repository that is not part of the
  sources given here; it is modelled from the spec ("a per-template
  constant, typically derived from template width") as an `advance` field.
* `sort.Slice` is modelled by `goSort`, Go's insertion sort (the exact
  algorithm `sort.Slice` runs for slices shorter than 12 elements; every
  concrete list evaluated in this file is far shorter).
-/

namespace LookupOCR

/-- `FontSymbol` from the source (`fonts` file): a symbol label together
with the observable fields of its binary image (`width`, `height`,
`image.size`).  `advance` is modelled from the spec: `Advance()` is the
symbol's horizontal pitch, a per-template constant. -/
structure FontSymbol where
  symbol : List Nat
  width : Int
  height : Int
  size : Int
  advance : Int
deriving DecidableEq, Repr

/-- `fontSymbolLookup` from the source: a scored, positioned candidate
match.  `g` is the quality score, `size` is copied from the template's
image size at creation. -/
structure fontSymbolLookup where
  fs : FontSymbol
  x : Int
  y : Int
  g : ℚ
  size : Int
deriving DecidableEq, Repr

/-- The integer absolute-value helper `abs` used by `biggerThan`. -/
def intAbs (x : Int) : Int := if x < 0 then -x else x

/-- Go `image.Rectangle`. -/
structure GoRect where
  minX : Int
  minY : Int
  maxX : Int
  maxY : Int
deriving DecidableEq, Repr

/-- Go `image.Rect`: canonicalizes so that min ≤ max on each axis. -/
def goRect (x0 y0 x1 y1 : Int) : GoRect :=
  let p := if x1 < x0 then (x1, x0) else (x0, x1)
  let q := if y1 < y0 then (y1, y0) else (y0, y1)
  ⟨p.1, q.1, p.2, q.2⟩

/-- Go `Rectangle.Empty`. -/
def GoRect.isEmpty (r : GoRect) : Bool :=
  decide (r.maxX ≤ r.minX) || decide (r.maxY ≤ r.minY)

/-- Go `Rectangle.Intersect`: clips and returns the zero rectangle when the
intersection is empty. -/
def GoRect.intersect (r s : GoRect) : GoRect :=
  let t : GoRect := ⟨max r.minX s.minX, max r.minY s.minY,
                     min r.maxX s.maxX, min r.maxY s.maxY⟩
  if t.isEmpty then ⟨0, 0, 0, 0⟩ else t

/-- `fontSymbolLookup.cross`: axis-aligned bounding-box intersection test,
exactly as in the source (`Intersect` compared against the zero
rectangle). -/
def cross (l f : fontSymbolLookup) : Bool :=
  let r := goRect l.x l.y (l.x + l.fs.width) (l.y + l.fs.height)
  let r2 := goRect f.x f.y (f.x + f.fs.width) (f.y + f.fs.height)
  decide (r.intersect r2 ≠ ⟨0, 0, 0, 0⟩)

/-- `fontSymbolLookup.yCross`: does one of `f`'s horizontal edges fall
within `l`'s vertical extent? -/
def yCross (l f : fontSymbolLookup) : Bool :=
  let ly2 := l.y + l.fs.height
  let fy2 := f.y + f.fs.height
  (decide (l.y ≤ f.y) && decide (f.y ≤ ly2)) ||
    (decide (l.y ≤ fy2) && decide (fy2 ≤ ly2))

/-- `fontSymbolLookup.biggerThan`: the overlap-resolution priority
comparator.  When the size gap is at least `maxSize2` the larger size wins;
otherwise strictly higher quality wins, with a final size tie-break. -/
def biggerThan (l other : fontSymbolLookup) (maxSize2 : Int) : Bool :=
  if maxSize2 ≤ intAbs (intAbs l.size - intAbs other.size) then
    decide (other.size < l.size)
  else if l.g - other.g ≠ 0 then decide (0 < l.g - other.g)
  else decide (other.size < l.size)

/-- `fontSymbolLookup.comesAfter`: the reading-order comparator (returns
`true` when `l` sorts before `f`). -/
def comesAfter (l f : fontSymbolLookup) : Bool :=
  let r0 : Int := if yCross l f then 0 else l.y - f.y
  let r1 : Int := if r0 = 0 then l.x - f.x else r0
  let r2 : Int := if r1 = 0 then l.y - f.y else r1
  decide (r2 < 0)

/-- The `maxSize` computation inside `biggerFirst`: maximum of
`i.fs.image.size` over the list, starting from 0. -/
def maxSize (list : List fontSymbolLookup) : Int :=
  list.foldl (fun m s => max m s.fs.size) 0

/-- `biggerFirst`: the closure handed to `sort.Slice`, comparing with
`biggerThan` at `maxSize/2` (integer division). -/
def biggerFirst (list : List fontSymbolLookup) : fontSymbolLookup → fontSymbolLookup → Bool :=
  fun i j => biggerThan i j (maxSize list / 2)

/-- The inner loop of Go's insertion sort: the new element `x` bubbles left
past the elements of the (reversed) sorted prefix while `less x y`. -/
def bubbleIns {α : Type} (less : α → α → Bool) (x : α) : List α → List α
  | [] => [x]
  | y :: ys => if less x y then y :: bubbleIns less x ys else x :: y :: ys

/-- Go insertion sort over a list, with the sorted prefix kept reversed in
`acc`. -/
def goSortAux {α : Type} (less : α → α → Bool) : List α → List α → List α
  | acc, [] => acc.reverse
  | acc, x :: xs => goSortAux less (bubbleIns less x acc) xs

/-- Model of Go's `sort.Slice`: for slices shorter than 12 elements
`sort.Slice` runs exactly this insertion sort.  (For a comparator that is a
strict weak order — the only case in which Go specifies `sort.Slice`'s
output — any conforming sort produces this same result.) -/
def goSort {α : Type} (less : α → α → Bool) (l : List α) : List α :=
  goSortAux less [] l

/-- Structural worker for `filterStep`.  The fuel argument only makes the
recursion structural: each step consumes one unit of fuel and shortens the
list (`(rest.filter p).length ≤ rest.length`), so with fuel initialized to
the list length the `0, _ :: _` case is unreachable
(`filterStepGo_fuel_eq` below proves fuel irrelevance). -/
def filterStepGo : Nat → List fontSymbolLookup → List fontSymbolLookup
  | _, [] => []
  | 0, _ :: _ => []
  | n + 1, k :: rest => k :: filterStepGo n (rest.filter (fun j => ! cross k j))

/-- The greedy suppression loop of `filterAndArrange`: each retained
candidate removes every later candidate whose bounding box crosses it.
(The Go loop deletes in place and re-indexes; on a list this is exactly
"keep the head, drop the crossing part of the tail, recurse".) -/
def filterStep (l : List fontSymbolLookup) : List fontSymbolLookup :=
  filterStepGo l.length l

/-- The text-synthesis loop of `filterAndArrange`.  `x` is the running
cursor, `prevAdv` the previous symbol's advance, `first` records `i = 0`.
Output is the byte string built by the `strings.Builder` (32 = space,
10 = newline). -/
def synth : List fontSymbolLookup → Int → Int → Bool → List Nat
  | [], _, _, _ => []
  | s :: rest, x, prevAdv, first =>
    let adv := s.fs.advance
    let maxAdv := max prevAdv adv
    (if maxAdv ≤ s.x - x ∧ first = false then [32] else []) ++
      (if s.x < x then [10] else []) ++
      s.fs.symbol ++ synth rest (s.x + adv) adv false

/-- The Overlap Resolver stage of `filterAndArrange` (spec §4.4): sort by
`biggerFirst`, then run the greedy suppression loop. -/
def resolveOverlaps (all : List fontSymbolLookup) : List fontSymbolLookup :=
  filterStep (goSort (biggerFirst all) all)

/-- `OCR.filterAndArrange`: sort by `biggerFirst`, greedily suppress
crossing candidates, sort into reading order, then synthesize text.  The Go
code reads `all[0].x` before the loop, so an empty input is a fault (index
out of range), modelled as `none`. -/
def filterAndArrange (all : List fontSymbolLookup) : Option (List Nat) :=
  let arranged := goSort (fun i j => comesAfter i j) (resolveOverlaps all)
  match arranged with
  | [] => none
  | s :: _ => some (synth arranged s.x 0 true)

/-- `OCR.recognize` after a successful scan: with no candidates it returns
the empty string (and nil error); otherwise it arranges them.  `some`
models a normal return with nil error. -/
def recognize (found : List fontSymbolLookup) : Option (List Nat) :=
  if found.length = 0 then some [] else filterAndArrange found

/-- The spec's "maximum `size` over the whole candidate list", computed
from the candidates' own `size` fields (the code folds over
`i.fs.image.size`; the two agree when every candidate carries its
template's size, which `newFontSymbolLookup` guarantees). -/
def maxCandidateSize (list : List fontSymbolLookup) : Int :=
  list.foldl (fun m s => max m s.size) 0

/-- Bytes of an ASCII string literal (used only on ASCII strings, where the
UTF-8 bytes are the code points). -/
def asciiBytes (s : String) : List Nat := s.data.map Char.toNat

/-- `strings.TrimSuffix(fileName, ".png")` from `loadSymbol`: drops a
trailing `".png"` (bytes 46,112,110,103) if present, otherwise leaves the
name unchanged. -/
def trimSuffixPng (name : List Nat) : List Nat :=
  if [46, 112, 110, 103].isSuffixOf name then name.take (name.length - 4)
  else name

/-- Is the byte an ASCII hex digit (`0-9`, `A-F`, `a-f`)? -/
def isHexDigit (c : Nat) : Bool :=
  (decide (48 ≤ c) && decide (c ≤ 57)) ||
    (decide (65 ≤ c) && decide (c ≤ 70)) ||
    (decide (97 ≤ c) && decide (c ≤ 102))

/-- Value of an ASCII hex digit (Go's `unhex`). -/
def hexVal (c : Nat) : Nat :=
  if 48 ≤ c ∧ c ≤ 57 then c - 48
  else if 65 ≤ c ∧ c ≤ 70 then c - 55
  else c - 87

/-- `net/url.QueryUnescape` on bytes: `%XY` (byte 37) decodes from hex —
a malformed escape is an error (`none`) — and `+` (byte 43) decodes to
space (byte 32). -/
def queryUnescape : List Nat → Option (List Nat)
  | [] => some []
  | 37 :: a :: b :: rest =>
    if isHexDigit a && isHexDigit b then
      (queryUnescape rest).map (fun t => (16 * hexVal a + hexVal b) :: t)
    else none
  | 37 :: _ => none
  | 43 :: rest => (queryUnescape rest).map (fun t => 32 :: t)
  | c :: rest => (queryUnescape rest).map (fun t => c :: t)

/-- The `strings.Replace` call in `loadSymbol` that deletes zero-width
spaces: removes every (non-overlapping, left-to-right) occurrence of the
UTF-8 bytes of U+200B (226, 128, 139). -/
def removeZWSP : List Nat → List Nat
  | [] => []
  | 226 :: 128 :: 139 :: rest => removeZWSP rest
  | c :: rest => c :: removeZWSP rest

/-- The label computation of `loadSymbol`: trim a `".png"` suffix, percent-
decode with `url.QueryUnescape` (an error aborts the load), then strip
zero-width spaces.  Image decoding is orthogonal to the label and omitted
here. -/
def loadSymbolLabel (fileName : List Nat) : Option (List Nat) :=
  (queryUnescape (trimSuffixPng fileName)).map removeZWSP

/-- The observable fields of a decoded template image (`imageBinary`):
dimensions and ink size. -/
structure FontImg where
  width : Int
  height : Int
  size : Int
deriving DecidableEq, Repr

/-- A directory entry as `loadFont` observes it: its (byte) name, whether
it is a directory, and the result of opening+decoding it as an image
(`none` models an open or decode failure). -/
structure FileRec where
  name : List Nat
  isDir : Bool
  img : Option FontImg
deriving DecidableEq, Repr

/-- A font directory as `LoadFont` observes it: whether `os.Stat` reports
it missing, and the `ioutil.ReadDir` result (`none` models a read
failure). -/
structure Dir where
  statNotExist : Bool
  entries : Option (List FileRec)
deriving DecidableEq, Repr

/-- The `OCR` struct: font families (a Go map, modelled as an association
list), the flat symbol list, and configuration. -/
structure OCR where
  fontFamilies : List (List Nat × List FontSymbol)
  threshold : ℚ
  allSymbols : List FontSymbol
  numThreads : Int
deriving DecidableEq, Repr

/-- Go map read: a missing key yields the zero value (nil slice). -/
def mapGet : List (List Nat × List FontSymbol) → List Nat → List FontSymbol
  | [], _ => []
  | (k, v) :: m, key => if k = key then v else mapGet m key

/-- Go map write: replace the key's entry or add one. -/
def mapSet : List (List Nat × List FontSymbol) → List Nat → List FontSymbol →
    List (List Nat × List FontSymbol)
  | [], key, val => [(key, val)]
  | (k, v) :: m, key, val =>
    if k = key then (key, val) :: m else (k, v) :: mapSet m key val

/-- `OCR.AddSymbols`: append to the flat symbol list. -/
def AddSymbols (o : OCR) (symbols : List FontSymbol) : OCR :=
  { o with allSymbols := o.allSymbols ++ symbols }

/-- `OCR.AddFontFamily`: extend the named family (no deduplication) and the
flat list. -/
def AddFontFamily (o : OCR) (name : List Nat) (symbols : List FontSymbol) : OCR :=
  let family := mapGet o.fontFamilies name ++ symbols
  AddSymbols { o with fontFamilies := mapSet o.fontFamilies name family } symbols

/-- `loadSymbol` for one directory entry: open+decode the image (failure
aborts), then compute the label; `NewFontSymbol` copies the image's
dimensions and size.  `advance` is modelled from the spec as the template
width. -/
def loadSymbolM (f : FileRec) : Option FontSymbol :=
  match f.img with
  | none => none
  | some im =>
    match queryUnescape (trimSuffixPng f.name) with
    | none => none
    | some nm => some ⟨removeZWSP nm, im.width, im.height, im.size, im.width⟩

/-- `loadFont`: walk the directory entries in order, skipping directories
and dot-files; the first failing `loadSymbol` aborts the whole load with an
error (`none`). -/
def loadFontM : List FileRec → Option (List FontSymbol)
  | [] => some []
  | f :: rest =>
    if f.isDir || (match f.name with | 46 :: _ => true | _ => false) then
      loadFontM rest
    else
      match loadSymbolM f with
      | none => none
      | some fs => (loadFontM rest).map (fun l => fs :: l)

/-- `OCR.LoadFont`: a missing directory (stat), a failing directory read,
or a failing `loadFont` return the error with the receiver untouched;
otherwise the loaded symbols are registered under the directory's base
name.  The first component is the returned error (`some ()` = non-nil). -/
def LoadFont (o : OCR) (dir : Dir) (familyName : List Nat) : Option Unit × OCR :=
  if dir.statNotExist then (some (), o)
  else
    match dir.entries with
    | none => (some (), o)
    | some files =>
      match loadFontM files with
      | none => (some (), o)
      | some symbols => (none, AddFontFamily o familyName symbols)

/-- Shorthand for building a template: label, width, height, ink size,
advance. -/
def fsMk (s : String) (w h sz adv : Int) : FontSymbol :=
  ⟨asciiBytes s, w, h, sz, adv⟩

/-- Two candidates that tie under `biggerThan` (equal sizes 1, so
`halfMax = 0` and the size branch ties) on the same bounding box. -/
def tieA : fontSymbolLookup := ⟨fsMk "A" 10 10 1 10, 0, 0, 1, 1⟩

/-- Second tied candidate, differing from `tieA` only in its label. -/
def tieB : fontSymbolLookup := ⟨fsMk "B" 10 10 1 10, 0, 0, 1, 1⟩

/-- A pair on which `biggerFirst` is a strict total order: sizes 1 and 0
give `halfMax = 0`, so the (strict) size comparison decides every pair. -/
def stoA : fontSymbolLookup := ⟨fsMk "A" 10 10 1 10, 0, 0, 1, 1⟩

/-- Counterpart of `stoA` with size 0, placed apart. -/
def stoB : fontSymbolLookup := ⟨fsMk "B" 10 10 0 10, 20, 0, 1, 0⟩

/-- Width-4 advance-10 candidate `A` at x = 0 (spec §8 space-insertion
example). -/
def advA : fontSymbolLookup := ⟨fsMk "A" 4 10 100 10, 0, 0, 1, 100⟩

/-- Width-4 advance-10 candidate `B` at x = 25 (gap large: word break). -/
def advB25 : fontSymbolLookup := ⟨fsMk "B" 4 10 10 10, 25, 0, 1, 10⟩

/-- Width-4 advance-10 candidate `B` at x = 5 (cursor after `A` is 10, so
the x-drop-back newline rule fires). -/
def advB5 : fontSymbolLookup := ⟨fsMk "B" 4 10 10 10, 5, 0, 1, 10⟩

/-- Candidate `A` at (0,0) of the spec §8 reading-order example. -/
def rdA : fontSymbolLookup := ⟨fsMk "A" 10 10 100 10, 0, 0, 1, 100⟩

/-- Candidate `B` at (10,0): same line as `rdA`, to its right. -/
def rdB : fontSymbolLookup := ⟨fsMk "B" 10 10 50 10, 10, 0, 1, 50⟩

/-- Candidate `C` at (0,20): a second line below `rdA` and `rdB`. -/
def rdC : fontSymbolLookup := ⟨fsMk "C" 10 10 0 10, 0, 20, 1, 0⟩

/-- `comesAfter` cycle witness: same line as `cycB` by `yCross`, to its
right. -/
def cycA : fontSymbolLookup := ⟨fsMk "A" 5 10 1 10, 20, 0, 1, 1⟩

/-- Middle element of the `comesAfter` cycle: vertically overlaps both
`cycA` and `cycC`, which do not overlap each other. -/
def cycB : fontSymbolLookup := ⟨fsMk "B" 5 10 1 10, 10, 8, 1, 1⟩

/-- Third element of the `comesAfter` cycle. -/
def cycC : fontSymbolLookup := ⟨fsMk "C" 5 10 1 10, 0, 16, 1, 1⟩

/-- A tall candidate vertically containing `incE`: `yCross incD incE` holds
but `yCross incE incD` does not, and the pair is `comesAfter`-incomparable. -/
def incD : fontSymbolLookup := ⟨fsMk "D" 5 100 1 10, 10, 0, 1, 1⟩

/-- Short candidate strictly inside `incD`'s vertical span, to its left. -/
def incE : fontSymbolLookup := ⟨fsMk "E" 5 10 1 10, 0, 10, 1, 1⟩

/-- Overlapping comparable-size pair for quality dominance: higher quality
2. -/
def qdA : fontSymbolLookup := ⟨fsMk "A" 10 10 10 10, 0, 0, 2, 10⟩

/-- Overlapping comparable-size pair for quality dominance: lower quality
1, box shifted by (1,1) so the boxes intersect. -/
def qdB : fontSymbolLookup := ⟨fsMk "B" 10 10 10 10, 1, 1, 1, 10⟩

/-- An empty OCR state. -/
def ocr0 : OCR := ⟨[], 0, [], 1⟩

/-- A directory whose `os.Stat` reports "does not exist". -/
def dirMissing : Dir := ⟨true, none⟩

/-! ### Generic facts about `goSort` (Go's insertion sort) -/

theorem bubbleIns_perm {α : Type} (less : α → α → Bool) (x : α) (acc : List α) :
    (bubbleIns less x acc).Perm (x :: acc) := by
  induction acc with
  | nil => simp [bubbleIns]
  | cons y ys ih =>
    unfold bubbleIns
    by_cases h : less x y = true
    · simp only [h, if_true]
      exact (ih.cons y).trans (List.Perm.swap x y ys)
    · simp [h]

theorem goSortAux_perm {α : Type} (less : α → α → Bool) :
    ∀ (l acc : List α), (goSortAux less acc l).Perm (acc ++ l) := by
  intro l
  induction l with
  | nil =>
    intro acc
    simp [goSortAux]
  | cons x xs ih =>
    intro acc
    have h1 := ih (bubbleIns less x acc)
    have h2 : (bubbleIns less x acc ++ xs).Perm ((x :: acc) ++ xs) :=
      (bubbleIns_perm less x acc).append_right xs
    have h3 : ((x :: acc) ++ xs).Perm (acc ++ x :: xs) := by
      simpa using List.perm_middle.symm
    exact (h1.trans h2).trans h3

theorem goSort_perm {α : Type} (less : α → α → Bool) (l : List α) :
    (goSort less l).Perm l := by
  simpa [goSort] using goSortAux_perm less l []

/-- Negative transitivity of an asymmetric, total, transitive comparator,
restricted to a carrier predicate `P`. -/
theorem less_negTrans {α : Type} (less : α → α → Bool) (P : α → Prop)
    (hasym : ∀ a b, less a b = true → less b a = false)
    (htot : ∀ a b, P a → P b → a ≠ b → less a b = true ∨ less b a = true)
    (htrans : ∀ a b c, P a → P b → P c →
      less a b = true → less b c = true → less a c = true)
    (a b c : α) (ha : P a) (hb : P b) (hc : P c)
    (hab : less a b = false) (hbc : less b c = false) : less a c = false := by
  cases hx : less a c with
  | false => rfl
  | true =>
    exfalso
    by_cases heq : a = b
    · subst heq
      simp [hbc] at hx
    · by_cases heq2 : b = c
      · subst heq2
        simp [hab] at hx
      · by_cases heq3 : a = c
        · subst heq3
          have := hasym a a hx
          simp [this] at hx
        · have hcb : less c b = true := by
            cases htot b c hb hc heq2 with
            | inl h => simp [h] at hbc
            | inr h => exact h
          have : less a b = true := htrans a c b ha hc hb hx hcb
          simp [this] at hab

theorem bubbleIns_pairwise {α : Type} (less : α → α → Bool) (P : α → Prop)
    (hasym : ∀ a b, less a b = true → less b a = false)
    (htot : ∀ a b, P a → P b → a ≠ b → less a b = true ∨ less b a = true)
    (htrans : ∀ a b c, P a → P b → P c →
      less a b = true → less b c = true → less a c = true)
    (x : α) (hx : P x) (acc : List α) (hmem : ∀ a ∈ acc, P a)
    (hpw : List.Pairwise (fun a b => less a b = false) acc) :
    List.Pairwise (fun a b => less a b = false) (bubbleIns less x acc) := by
  induction acc with
  | nil => simp [bubbleIns]
  | cons y ys ih =>
    rw [List.pairwise_cons] at hpw
    obtain ⟨hy, hys⟩ := hpw
    unfold bubbleIns
    by_cases h : less x y = true
    · simp only [h, if_true]
      rw [List.pairwise_cons]
      refine ⟨?_, ih (fun a ha => hmem a (List.mem_cons_of_mem y ha)) hys⟩
      intro z hz
      rw [(bubbleIns_perm less x ys).mem_iff] at hz
      cases List.mem_cons.mp hz with
      | inl hzx => rw [hzx]; exact hasym x y h
      | inr hzys => exact hy z hzys
    · have h' : less x y = false := by
        cases hv : less x y with
        | true => exact absurd hv h
        | false => rfl
      simp only [h', Bool.false_eq_true, if_false]
      rw [List.pairwise_cons]
      refine ⟨?_, List.pairwise_cons.mpr ⟨hy, hys⟩⟩
      intro z hz
      cases List.mem_cons.mp hz with
      | inl hzy => rw [hzy]; exact h'
      | inr hzys =>
        exact less_negTrans less P hasym htot htrans x y z hx
          (hmem y (List.mem_cons_self y ys)) (hmem z (List.mem_cons_of_mem y hzys))
          h' (hy z hzys)

theorem goSortAux_pairwise {α : Type} (less : α → α → Bool) (P : α → Prop)
    (hasym : ∀ a b, less a b = true → less b a = false)
    (htot : ∀ a b, P a → P b → a ≠ b → less a b = true ∨ less b a = true)
    (htrans : ∀ a b c, P a → P b → P c →
      less a b = true → less b c = true → less a c = true) :
    ∀ (l acc : List α), (∀ a ∈ l, P a) → (∀ a ∈ acc, P a) →
      List.Pairwise (fun a b => less a b = false) acc →
      List.Pairwise (fun a b => less b a = false) (goSortAux less acc l) := by
  intro l
  induction l with
  | nil =>
    intro acc _ _ hpw
    unfold goSortAux
    rw [List.pairwise_reverse]
    exact hpw
  | cons x xs ih =>
    intro acc hl hmem hpw
    unfold goSortAux
    apply ih
    · exact fun a ha => hl a (List.mem_cons_of_mem x ha)
    · intro a ha
      rw [(bubbleIns_perm less x acc).mem_iff] at ha
      cases List.mem_cons.mp ha with
      | inl hax => rw [hax]; exact hl x (List.mem_cons_self x xs)
      | inr haacc => exact hmem a haacc
    · exact bubbleIns_pairwise less P hasym htot htrans x
        (hl x (List.mem_cons_self x xs)) acc hmem hpw

theorem goSort_sorted {α : Type} (less : α → α → Bool) (P : α → Prop)
    (hasym : ∀ a b, less a b = true → less b a = false)
    (htot : ∀ a b, P a → P b → a ≠ b → less a b = true ∨ less b a = true)
    (htrans : ∀ a b c, P a → P b → P c →
      less a b = true → less b c = true → less a c = true)
    (l : List α) (hl : ∀ a ∈ l, P a) :
    List.Pairwise (fun a b => less b a = false) (goSort less l) :=
  goSortAux_pairwise less P hasym htot htrans l [] hl (by simp) (by simp)

/-- Two sorted lists that are permutations of each other and whose order
relation is antisymmetric on their elements are equal. -/
theorem sortedPermEq {α : Type} {S : α → α → Prop} :
    ∀ l₁ l₂ : List α, l₁.Perm l₂ → List.Pairwise S l₁ → List.Pairwise S l₂ →
      (∀ a b, a ∈ l₁ → b ∈ l₁ → S a b → S b a → a = b) → l₁ = l₂ := by
  intro l₁
  induction l₁ with
  | nil =>
    intro l₂ p _ _ _
    exact p.symm.eq_nil.symm
  | cons a t₁ ih =>
    intro l₂ p hpw₁ hpw₂ hanti
    cases l₂ with
    | nil => simp at p
    | cons b t₂ =>
      rw [List.pairwise_cons] at hpw₁ hpw₂
      have hab : a = b := by
        by_cases h : a = b
        · exact h
        · have haT : a ∈ t₂ := by
            have haIn : a ∈ b :: t₂ := p.mem_iff.mp (List.mem_cons_self a t₁)
            cases List.mem_cons.mp haIn with
            | inl hx => exact absurd hx h
            | inr hx => exact hx
          have hbT : b ∈ t₁ := by
            have hbIn : b ∈ a :: t₁ := p.mem_iff.mpr (List.mem_cons_self b t₂)
            cases List.mem_cons.mp hbIn with
            | inl hx => exact absurd hx.symm h
            | inr hx => exact hx
          exact hanti a b (List.mem_cons_self a t₁) (List.mem_cons_of_mem a hbT)
            (hpw₁.1 b hbT) (hpw₂.1 a haT)
      subst hab
      rw [ih t₂ p.cons_inv hpw₁.2 hpw₂.2
        (fun u v hu hv => hanti u v (List.mem_cons_of_mem a hu)
          (List.mem_cons_of_mem a hv))]

/-- For a comparator that is a strict total order on the elements of `l₁`,
`goSort` maps any permutation of `l₁` to the same list. -/
theorem goSort_eq_of_perm {α : Type} (less : α → α → Bool) (l₁ l₂ : List α)
    (p : l₁.Perm l₂)
    (hasym : ∀ a b, less a b = true → less b a = false)
    (htot : ∀ a b, a ∈ l₁ → b ∈ l₁ → a ≠ b → less a b = true ∨ less b a = true)
    (htrans : ∀ a b c, a ∈ l₁ → b ∈ l₁ → c ∈ l₁ →
      less a b = true → less b c = true → less a c = true) :
    goSort less l₁ = goSort less l₂ := by
  have perm1 : (goSort less l₁).Perm l₁ := goSort_perm less l₁
  have perm2 : (goSort less l₂).Perm l₂ := goSort_perm less l₂
  have pp : (goSort less l₁).Perm (goSort less l₂) :=
    perm1.trans (p.trans perm2.symm)
  have hs₁ : List.Pairwise (fun a b => less b a = false) (goSort less l₁) :=
    goSort_sorted less (· ∈ l₁) hasym htot htrans l₁ (fun a ha => ha)
  have hs₂ : List.Pairwise (fun a b => less b a = false) (goSort less l₂) :=
    goSort_sorted less (· ∈ l₁) hasym htot htrans l₂
      (fun a ha => p.mem_iff.mpr ha)
  refine sortedPermEq _ _ pp hs₁ hs₂ ?_
  intro u v hu hv hSuv hSvu
  by_contra hne
  have hu' : u ∈ l₁ := perm1.mem_iff.mp hu
  have hv' : v ∈ l₁ := perm1.mem_iff.mp hv
  cases htot u v hu' hv' hne with
  | inl h => simp [h] at hSvu
  | inr h => simp [h] at hSuv

/-! ### Facts about the pipeline's building blocks -/

/-- The fuel argument of `filterStepGo` is irrelevant as soon as it covers
the list length, so `filterStep` is the Go suppression loop. -/
theorem filterStepGo_fuel_eq : ∀ (n m : Nat) (l : List fontSymbolLookup),
    l.length ≤ n → l.length ≤ m → filterStepGo n l = filterStepGo m l := by
  intro n
  induction n with
  | zero =>
    intro m l hn _
    cases l with
    | nil => cases m <;> rfl
    | cons k rest => simp at hn
  | succ n ih =>
    intro m l hn hm
    cases l with
    | nil => cases m <;> rfl
    | cons k rest =>
      cases m with
      | zero => simp at hm
      | succ m =>
        simp only [filterStepGo]
        have hf := List.length_filter_le (fun j => ! cross k j) rest
        simp only [List.length_cons] at hn hm
        rw [ih m (rest.filter (fun j => ! cross k j)) (by omega) (by omega)]

theorem foldlMax_perm {l₁ l₂ : List fontSymbolLookup} (p : l₁.Perm l₂) :
    ∀ a : Int, l₁.foldl (fun m s => max m s.fs.size) a =
      l₂.foldl (fun m s => max m s.fs.size) a := by
  induction p with
  | nil => intro a; rfl
  | cons x _ ih =>
    intro a
    simp only [List.foldl_cons]
    exact ih _
  | swap x y l =>
    intro a
    simp only [List.foldl_cons]
    rw [Max.right_comm]
  | trans _ _ ih₁ ih₂ =>
    intro a
    exact (ih₁ a).trans (ih₂ a)

/-- `maxSize` (and hence the `halfMax` cut-off of `biggerFirst`) does not
depend on the order of the candidate list. -/
theorem maxSize_perm {l₁ l₂ : List fontSymbolLookup} (p : l₁.Perm l₂) :
    maxSize l₁ = maxSize l₂ :=
  foldlMax_perm p 0

theorem intAbs_sub_comm (x y : Int) : intAbs (x - y) = intAbs (y - x) := by
  unfold intAbs
  split_ifs <;> omega

theorem intAbs_of_nonneg {x : Int} (h : 0 ≤ x) : intAbs x = x := by
  unfold intAbs
  split_ifs <;> omega

/-- `biggerThan` is asymmetric: two distinct-priority candidates never both
precede each other (at any cut-off). -/
theorem biggerThan_asymm (a b : fontSymbolLookup) (m2 : Int)
    (h : biggerThan a b m2 = true) : biggerThan b a m2 = false := by
  unfold biggerThan at h ⊢
  rw [intAbs_sub_comm (intAbs b.size) (intAbs a.size)]
  by_cases hc : m2 ≤ intAbs (intAbs a.size - intAbs b.size)
  · rw [if_pos hc] at h
    rw [if_pos hc]
    simp only [decide_eq_true_eq] at h
    simp only [decide_eq_false_iff_not]
    omega
  · rw [if_neg hc] at h
    rw [if_neg hc]
    by_cases hd : a.g - b.g ≠ 0
    · rw [if_pos hd] at h
      have hd' : b.g - a.g ≠ 0 := fun hzero => hd (by linarith)
      rw [if_pos hd']
      simp only [decide_eq_true_eq] at h
      simp only [decide_eq_false_iff_not]
      linarith
    · rw [if_neg hd] at h
      have hd' : ¬(b.g - a.g ≠ 0) := by
        simp only [ne_eq, not_not] at hd ⊢
        linarith
      rw [if_neg hd']
      simp only [decide_eq_true_eq] at h
      simp only [decide_eq_false_iff_not]
      omega

/-! ### Claim C1 -/

/-- C1 counterexample: `filterAndArrange` is NOT invariant under
permutation of its input list.  `tieA` and `tieB` are distinct overlapping
candidates with equal size and equal quality, so the `biggerFirst` priority
comparator ties on them in both directions and the sort leaves them in
input order; greedy suppression then keeps whichever came first: input
`[tieA, tieB]` yields `"A"` while its permutation `[tieB, tieA]` yields
`"B"`. -/
theorem C1_counterexample :
    ([tieA, tieB] : List fontSymbolLookup).Perm [tieB, tieA] ∧
      filterAndArrange [tieA, tieB] = some (asciiBytes "A") ∧
      filterAndArrange [tieB, tieA] = some (asciiBytes "B") ∧
      filterAndArrange [tieA, tieB] ≠ filterAndArrange [tieB, tieA] :=
  ⟨List.Perm.swap tieB tieA [], by decide, by decide, by decide⟩

/-- C1 amended: `filterAndArrange` produces the same output text for every
permutation of its input list PROVIDED the `biggerFirst` priority
comparator is a strict total order on the list's candidates (it is always
asymmetric; totality and transitivity are the proviso).  Ties — distinct
candidates with equal size whose qualities are equal or irrelevant — and
cyclic triples void the guarantee, as the counterexample shows; the
worker-count invariance of `recognize` consequently also only holds under
this proviso. -/
theorem C1_theorem (l₁ l₂ : List fontSymbolLookup) (hperm : l₁.Perm l₂)
    (htot : ∀ a ∈ l₁, ∀ b ∈ l₁, a ≠ b →
      biggerFirst l₁ a b = true ∨ biggerFirst l₁ b a = true)
    (htrans : ∀ a ∈ l₁, ∀ b ∈ l₁, ∀ c ∈ l₁,
      biggerFirst l₁ a b = true → biggerFirst l₁ b c = true →
      biggerFirst l₁ a c = true) :
    filterAndArrange l₁ = filterAndArrange l₂ := by
  have hmax : maxSize l₁ = maxSize l₂ := maxSize_perm hperm
  have hcmp : biggerFirst l₁ = biggerFirst l₂ := by
    unfold biggerFirst
    rw [hmax]
  have hsort : goSort (biggerFirst l₁) l₁ = goSort (biggerFirst l₁) l₂ :=
    goSort_eq_of_perm (biggerFirst l₁) l₁ l₂ hperm
      (fun a b h => biggerThan_asymm a b _ h)
      (fun a b ha hb => htot a ha b hb)
      (fun a b c ha hb hc => htrans a ha b hb c hc)
  unfold filterAndArrange resolveOverlaps
  rw [← hcmp, hsort]

/-- C1 witness: on a pair where a large size gap makes `biggerFirst` a
strict total order, the two permutations of the input produce the same
text. -/
theorem C1_witness :
    filterAndArrange [stoA, stoB] = filterAndArrange [stoB, stoA] :=
  C1_theorem [stoA, stoB] [stoB, stoA] (List.Perm.swap stoB stoA [])
    (by decide) (by decide)

/-! ### Claim C2 -/

theorem foldlMax_congr : ∀ (l : List fontSymbolLookup) (a : Int),
    (∀ s ∈ l, s.size = s.fs.size) →
    l.foldl (fun m s => max m s.fs.size) a = l.foldl (fun m s => max m s.size) a := by
  intro l
  induction l with
  | nil => intro a _; rfl
  | cons x xs ih =>
    intro a h
    simp only [List.foldl_cons]
    rw [← h x (List.mem_cons_self x xs)]
    exact ih _ (fun s hs => h s (List.mem_cons_of_mem x hs))

/-- When every candidate carries its template's size (as
`newFontSymbolLookup` guarantees), the code's `maxSize` fold over
`fs.image.size` equals the spec's maximum over the candidates' sizes. -/
theorem maxSize_eq_maxCandidateSize (all : List fontSymbolLookup)
    (hinv : ∀ s ∈ all, s.size = s.fs.size) :
    maxSize all = maxCandidateSize all :=
  foldlMax_congr all 0 hinv

/-- C2: the priority order places `a` before `b` iff — with `halfMax` the
integer half of the maximum size over the whole candidate list — either the
size gap reaches `halfMax` and `a` is larger, or the gap is below `halfMax`
and `a` has strictly higher quality, or equal quality and larger size.
(Stated for candidates carrying their template's nonnegative ink sizes,
the invariant `newFontSymbolLookup` establishes.) -/
theorem C2_theorem (all : List fontSymbolLookup) (a b : fontSymbolLookup)
    (ha : a ∈ all) (hb : b ∈ all)
    (hnn : ∀ s ∈ all, 0 ≤ s.size)
    (hinv : ∀ s ∈ all, s.size = s.fs.size) :
    (maxCandidateSize all / 2 ≤ intAbs (a.size - b.size) →
      (biggerFirst all a b = true ↔ b.size < a.size)) ∧
    (intAbs (a.size - b.size) < maxCandidateSize all / 2 →
      (biggerFirst all a b = true ↔
        (b.g < a.g ∨ (a.g = b.g ∧ b.size < a.size)))) := by
  have hsz : maxSize all = maxCandidateSize all :=
    maxSize_eq_maxCandidateSize all hinv
  have hA : intAbs a.size = a.size := intAbs_of_nonneg (hnn a ha)
  have hB : intAbs b.size = b.size := intAbs_of_nonneg (hnn b hb)
  unfold biggerFirst biggerThan
  rw [hsz, hA, hB]
  constructor
  · intro hge
    rw [if_pos hge]
    simp only [decide_eq_true_eq]
  · intro hlt
    rw [if_neg (not_le.mpr hlt)]
    by_cases hd : a.g - b.g ≠ 0
    · rw [if_pos hd]
      simp only [decide_eq_true_eq]
      constructor
      · intro h
        left
        linarith
      · intro h
        cases h with
        | inl h => linarith
        | inr h => exact absurd (by linarith : a.g - b.g = 0) hd
    · rw [if_neg hd]
      simp only [ne_eq, not_not] at hd
      have heq : a.g = b.g := by linarith
      simp only [decide_eq_true_eq]
      constructor
      · intro h
        right
        exact ⟨heq, h⟩
      · intro h
        cases h with
        | inl h => linarith
        | inr h => exact h.2

/-- C2 witness: the characterization instantiated on the concrete
comparable-size pair `qdA`, `qdB`. -/
theorem C2_witness :
    (maxCandidateSize [qdA, qdB] / 2 ≤ intAbs (qdA.size - qdB.size) →
      (biggerFirst [qdA, qdB] qdA qdB = true ↔ qdB.size < qdA.size)) ∧
    (intAbs (qdA.size - qdB.size) < maxCandidateSize [qdA, qdB] / 2 →
      (biggerFirst [qdA, qdB] qdA qdB = true ↔
        (qdB.g < qdA.g ∨ (qdA.g = qdB.g ∧ qdB.size < qdA.size)))) :=
  C2_theorem [qdA, qdB] qdA qdB (by decide) (by decide) (by decide) (by decide)

/-! ### Claim C3 -/

/-- `yCross` is directional: when it holds one way only, the first
candidate starts strictly higher (needs the second's height to be
nonnegative). -/
theorem yCross_mixed (l f : fontSymbolLookup) (hf : 0 ≤ f.fs.height)
    (h1 : yCross l f = true) (h2 : yCross f l = false) : l.y < f.y := by
  unfold yCross at h1 h2
  simp only [Bool.or_eq_true, Bool.and_eq_true, decide_eq_true_eq] at h1
  simp only [Bool.or_eq_false_iff, Bool.and_eq_false_iff,
    decide_eq_false_iff_not, not_le] at h2
  omega

/-- C3 counterexample: `comesAfter` is NOT a strict total order.  The
triple `cycC, cycB, cycA` is a cycle (`C` before `B`, `B` before `A`, yet
`A` before `C`), refuting transitivity; and the distinct pair `incD, incE`
(one vertically containing the other) is incomparable in both directions,
refuting totality. -/
theorem C3_counterexample :
    (comesAfter cycC cycB = true ∧ comesAfter cycB cycA = true ∧
      comesAfter cycC cycA = false) ∧
    (incD ≠ incE ∧ comesAfter incD incE = false ∧
      comesAfter incE incD = false) :=
  ⟨⟨by decide, by decide, by decide⟩, ⟨by decide, by decide, by decide⟩⟩

/-- C3 amended: for candidates with nonnegative heights `comesAfter` is
asymmetric (hence irreflexive), orders candidates that `yCross` declares
on the same line by ascending x with ties by ascending y, and candidates
not on the same line by ascending y with ties by ascending x — but it is
not transitive and not total (and `yCross` itself is directional), so it is
not a strict total order. -/
theorem C3_theorem (l f : fontSymbolLookup)
    (hl : 0 ≤ l.fs.height) (hf : 0 ≤ f.fs.height) :
    (¬(comesAfter l f = true ∧ comesAfter f l = true)) ∧
    (yCross l f = true →
      (comesAfter l f = true ↔ (l.x < f.x ∨ (l.x = f.x ∧ l.y < f.y)))) ∧
    (yCross l f = false →
      (comesAfter l f = true ↔ (l.y < f.y ∨ (l.y = f.y ∧ l.x < f.x)))) := by
  refine ⟨?_, ?_, ?_⟩
  · rintro ⟨h1, h2⟩
    cases hc1 : yCross l f <;> cases hc2 : yCross f l
    · unfold comesAfter at h1 h2
      simp only [hc1, hc2, Bool.false_eq_true, if_false, decide_eq_true_eq] at h1 h2
      split_ifs at h1 h2 <;> omega
    · have hm := yCross_mixed f l hl hc2 hc1
      unfold comesAfter at h1
      simp only [hc1, Bool.false_eq_true, if_false, decide_eq_true_eq] at h1
      split_ifs at h1 <;> omega
    · have hm := yCross_mixed l f hf hc1 hc2
      unfold comesAfter at h2
      simp only [hc2, Bool.false_eq_true, if_false, decide_eq_true_eq] at h2
      split_ifs at h2 <;> omega
    · unfold comesAfter at h1 h2
      simp only [hc1, hc2, if_true, decide_eq_true_eq] at h1 h2
      split_ifs at h1 h2 <;> omega
  · intro hc
    unfold comesAfter
    simp only [hc, if_true, decide_eq_true_eq]
    split_ifs <;> constructor <;> intro h <;> omega
  · intro hc
    unfold comesAfter
    simp only [hc, Bool.false_eq_true, if_false, decide_eq_true_eq]
    split_ifs <;> constructor <;> intro h <;> omega

/-- C3 witness: the amended characterization instantiated on the concrete
pair `incD`, `incE`. -/
theorem C3_witness :
    (¬(comesAfter incD incE = true ∧ comesAfter incE incD = true)) ∧
    (yCross incD incE = true →
      (comesAfter incD incE = true ↔
        (incD.x < incE.x ∨ (incD.x = incE.x ∧ incD.y < incE.y)))) ∧
    (yCross incD incE = false →
      (comesAfter incD incE = true ↔
        (incD.y < incE.y ∨ (incD.y = incE.y ∧ incD.x < incE.x)))) :=
  C3_theorem incD incE (by decide) (by decide)

/-! ### Claim C4 -/

/-- C4: given the two overlapping candidates with comparable sizes (size
gap strictly below `halfMax`), the overlap resolver keeps the strictly
higher-quality one and removes the other, whichever order they arrive in.
(Sizes are nonnegative ink counts carried from the templates, the
invariant `newFontSymbolLookup` establishes.) -/
theorem C4_theorem (a b : fontSymbolLookup)
    (hcross : cross a b = true)
    (hnnA : 0 ≤ a.size) (hnnB : 0 ≤ b.size)
    (hinvA : a.size = a.fs.size) (hinvB : b.size = b.fs.size)
    (hclose : intAbs (a.size - b.size) < maxCandidateSize [a, b] / 2)
    (hq : b.g < a.g) :
    resolveOverlaps [a, b] = [a] ∧ resolveOverlaps [b, a] = [a] := by
  have hinvAB : ∀ s ∈ [a, b], s.size = s.fs.size := by
    intro s hs
    rcases List.mem_cons.mp hs with h | h
    · rw [h]; exact hinvA
    · rw [List.mem_singleton.mp h]; exact hinvB
  have hms : maxSize [b, a] = maxSize [a, b] :=
    foldlMax_perm (List.Perm.swap a b []) 0
  have hszAB : maxSize [a, b] = maxCandidateSize [a, b] :=
    maxSize_eq_maxCandidateSize _ hinvAB
  have hcond : ¬(maxSize [a, b] / 2 ≤ intAbs (intAbs a.size - intAbs b.size)) := by
    rw [intAbs_of_nonneg hnnA, intAbs_of_nonneg hnnB, hszAB]
    exact not_le.mpr hclose
  have hd : a.g - b.g ≠ 0 := by
    intro h
    have : a.g = b.g := by linarith
    linarith
  have hAB : biggerThan a b (maxSize [a, b] / 2) = true := by
    unfold biggerThan
    rw [if_neg hcond, if_pos hd]
    simp only [decide_eq_true_eq]
    linarith
  have hBA : biggerThan b a (maxSize [a, b] / 2) = false :=
    biggerThan_asymm a b _ hAB
  have hfs : filterStep [a, b] = [a] := by
    simp [filterStep, filterStepGo, List.filter, hcross]
  constructor
  · have hsort : goSort (biggerFirst [a, b]) [a, b] = [a, b] := by
      simp [goSort, goSortAux, bubbleIns, biggerFirst, hBA]
    unfold resolveOverlaps
    rw [hsort, hfs]
  · have hsort2 : goSort (biggerFirst [b, a]) [b, a] = [a, b] := by
      simp [goSort, goSortAux, bubbleIns, biggerFirst, hms, hAB]
    unfold resolveOverlaps
    rw [hsort2, hfs]

/-- C4 witness: the resolver keeps the strictly higher-quality candidate of
the concrete overlapping pair `qdA` (quality 2), `qdB` (quality 1). -/
theorem C4_witness :
    resolveOverlaps [qdA, qdB] = [qdA] ∧ resolveOverlaps [qdB, qdA] = [qdA] :=
  C4_theorem qdA qdB (by decide) (by decide) (by decide) (by decide)
    (by decide) (by decide) (by decide)

/-! ### Claim C5 -/

/-- C5 counterexample: on an empty candidate list `filterAndArrange` does
NOT yield the empty string — it faults (the Go code indexes `all[0]`
before the synthesis loop; the fault is modelled as `none`). -/
theorem C5_counterexample :
    filterAndArrange [] = none ∧ filterAndArrange [] ≠ some [] :=
  ⟨rfl, by decide⟩

/-- C5 amended: the empty-input ⇒ empty-string edge case lives in
`recognize`, not in `filterAndArrange`: `recognize` returns the empty
string for an empty candidate list before ever invoking
`filterAndArrange`, while `filterAndArrange` itself faults (out-of-range
index) on an empty list. -/
theorem C5_theorem :
    recognize [] = some [] ∧ filterAndArrange [] = none :=
  ⟨rfl, rfl⟩

/-! ### Claim C6 -/

/-- C6 counterexample: two same-line advance-10 candidates at x = 0 and
x = 5 do NOT produce `"AB"`: the cursor after the first symbol is
0 + 10 = 10, and 5 < 10 triggers the newline rule, so the output is
`"A\nB"`. -/
theorem C6_counterexample :
    filterAndArrange [advA, advB5] = some (asciiBytes "A\nB") ∧
      filterAndArrange [advA, advB5] ≠ some (asciiBytes "AB") :=
  ⟨by decide, by decide⟩

/-- C6 amended: for `i ≠ 0` a space is emitted before a symbol exactly
when `s.x − cursorX ≥ max(previousAdvance, advance(s))`, and never for the
first symbol; two same-line advance-10 candidates at x = 0 and x = 25
produce `"A B"`, while at x = 0 and x = 5 they produce `"A\nB"` (no space,
but a newline, since the cursor 10 exceeds 5). -/
theorem C6_theorem :
    (∀ (s : fontSymbolLookup) (rest : List fontSymbolLookup) (x prevAdv : Int),
      max prevAdv s.fs.advance ≤ s.x - x →
        synth (s :: rest) x prevAdv false =
          32 :: ((if s.x < x then [10] else []) ++ s.fs.symbol ++
            synth rest (s.x + s.fs.advance) s.fs.advance false)) ∧
    (∀ (s : fontSymbolLookup) (rest : List fontSymbolLookup) (x prevAdv : Int),
      s.x - x < max prevAdv s.fs.advance →
        synth (s :: rest) x prevAdv false =
          (if s.x < x then [10] else []) ++ s.fs.symbol ++
            synth rest (s.x + s.fs.advance) s.fs.advance false) ∧
    (∀ (s : fontSymbolLookup) (rest : List fontSymbolLookup) (x prevAdv : Int),
      synth (s :: rest) x prevAdv true =
        (if s.x < x then [10] else []) ++ s.fs.symbol ++
          synth rest (s.x + s.fs.advance) s.fs.advance false) ∧
    filterAndArrange [advA, advB25] = some (asciiBytes "A B") ∧
    filterAndArrange [advA, advB5] = some (asciiBytes "A\nB") := by
  refine ⟨?_, ?_, ?_, by decide, by decide⟩
  · intro s rest x prevAdv h
    simp [synth, h]
  · intro s rest x prevAdv h
    have h' : ¬(max prevAdv s.fs.advance ≤ s.x - x) := not_le.mpr h
    simp [synth, h']
  · intro s rest x prevAdv
    simp [synth]

/-- C6 witness: the space rule instantiated at the concrete candidate
`advB25` with cursor 0 (gap 25 ≥ advance 10 emits a space). -/
theorem C6_witness :
    synth [advB25] 0 0 false =
      32 :: ((if advB25.x < 0 then [10] else []) ++ advB25.fs.symbol ++
        synth [] (advB25.x + advB25.fs.advance) advB25.fs.advance false) :=
  C6_theorem.1 advB25 [] 0 0 (by decide)

/-! ### Claim C7 -/

/-- C7: a newline is emitted before a symbol exactly when its x coordinate
dropped below the running cursor, and the three non-overlapping candidates
`A (0,0)`, `B (10,0)`, `C (0,20)` are arranged (from any input order) as
`"AB\nC"`. -/
theorem C7_theorem :
    (∀ (s : fontSymbolLookup) (rest : List fontSymbolLookup)
        (x prevAdv : Int) (first : Bool),
      s.x < x →
        synth (s :: rest) x prevAdv first =
          (if max prevAdv s.fs.advance ≤ s.x - x ∧ first = false
            then [32] else []) ++
          10 :: (s.fs.symbol ++
            synth rest (s.x + s.fs.advance) s.fs.advance false)) ∧
    (∀ (s : fontSymbolLookup) (rest : List fontSymbolLookup)
        (x prevAdv : Int) (first : Bool),
      x ≤ s.x →
        synth (s :: rest) x prevAdv first =
          (if max prevAdv s.fs.advance ≤ s.x - x ∧ first = false
            then [32] else []) ++
          s.fs.symbol ++
            synth rest (s.x + s.fs.advance) s.fs.advance false) ∧
    filterAndArrange [rdB, rdC, rdA] = some (asciiBytes "AB\nC") := by
  refine ⟨?_, ?_, by decide⟩
  · intro s rest x prevAdv first h
    simp only [synth]
    rw [if_pos h]
    simp
  · intro s rest x prevAdv first h
    simp only [synth]
    rw [if_neg (not_lt.mpr h)]
    simp

/-- C7 witness: the newline rule instantiated at the concrete second-line
candidate `rdC` with the running cursor at 20 (0 < 20 emits a newline). -/
theorem C7_witness :
    synth [rdC] 20 10 false =
      (if max 10 rdC.fs.advance ≤ rdC.x - 20 ∧ false = false
        then [32] else []) ++
      10 :: (rdC.fs.symbol ++
        synth [] (rdC.x + rdC.fs.advance) rdC.fs.advance false) :=
  C7_theorem.1 rdC [] 20 10 false (by decide)

/-! ### Claim C8 -/

/-- C8 counterexample: the label is NOT the percent-decoded name with "its
extension" stripped — only a `".png"` suffix is stripped.  A (decodable,
per the repository's own PNG/JPEG documentation) template file named
`1.jpg` keeps its extension: the label is `"1.jpg"`, not `"1"`. -/
theorem C8_counterexample :
    loadSymbolLabel (asciiBytes "1.jpg") = some (asciiBytes "1.jpg") ∧
      loadSymbolLabel (asciiBytes "1.jpg") ≠ some (asciiBytes "1") :=
  ⟨by decide, by decide⟩

/-- C8 amended: the symbol label is the percent-decoded file name with a
trailing `".png"` suffix (only) stripped — other extensions are kept — and
every literal U+200B removed after decoding; in particular
`%2F%E2%80%8B.png` yields the label `"/"`. -/
theorem C8_theorem :
    loadSymbolLabel (asciiBytes "%2F%E2%80%8B.png") = some (asciiBytes "/") ∧
      loadSymbolLabel (asciiBytes "1.jpg") = some (asciiBytes "1.jpg") :=
  ⟨by decide, by decide⟩

/-! ### Claim C9 -/

/-- C9: when the scanner produces no candidates (empty template pool or no
score reaching the threshold), `recognize` returns the empty string with a
nil error — a success, not a failure. -/
theorem C9_theorem : recognize [] = some [] := rfl

/-! ### Claim C10 -/

/-- C10: whenever `LoadFont` returns a non-nil error — missing directory,
unreadable directory, unreadable/undecodable file, or malformed
percent-encoded name — the OCR state is unchanged: no font family is
created or extended and no symbol is appended to the flat list. -/
theorem C10_theorem (o : OCR) (dir : Dir) (nm : List Nat)
    (h : (LoadFont o dir nm).1 = some ()) : (LoadFont o dir nm).2 = o := by
  unfold LoadFont at h ⊢
  by_cases hs : dir.statNotExist = true
  · simp [hs]
  · simp only [Bool.not_eq_true] at hs
    simp only [hs, Bool.false_eq_true, if_false] at h ⊢
    cases he : dir.entries with
    | none => simp [he]
    | some files =>
      simp only [he] at h ⊢
      cases hf : loadFontM files with
      | none => simp [hf]
      | some syms => simp [hf] at h

/-- C10 witness: loading from a missing directory errors and leaves the
empty OCR state untouched. -/
theorem C10_witness :
    (LoadFont ocr0 dirMissing []).1 = some () ∧
      (LoadFont ocr0 dirMissing []).2 = ocr0 :=
  ⟨rfl, C10_theorem ocr0 dirMissing [] rfl⟩

end LookupOCR
